import Mathlib

/-!
Verification development for the turbo-tasks memory backend and the
ChunkedVec utility.

The definitions below are a shallow embedding of the Rust sources:
`crates/turbo-tasks-memory/src/memory_backend.rs` and
`turbopack/crates/turbo-tasks-backend/src/utils/chunked_vec.rs`.
Components of the repository that are referenced by the backend but whose
sources are not part of this tree (the `Task`, `Output` and `Slot` records,
the `IdFactory` allocator, the `NoMoveVec` store and the concurrent cache)
are modelled from the specification document; each such definition carries a
doc comment saying so.
-/

namespace MemSpec

/-! ## ChunkedVec (turbopack/crates/turbo-tasks-backend/src/utils/chunked_vec.rs) -/

/-- A Rust `Vec<T>` chunk: its elements together with its allocated
capacity.  `ChunkedVec.push` never pushes into a full chunk, so the capacity
recorded at `Vec::with_capacity` time never changes. -/
structure Chunk (T : Type) where
  data : List T
  cap : Nat
deriving DecidableEq

/-- `fn chunk_size(chunk_index: usize) -> usize { 8 << chunk_index }` -/
def chunk_size (chunk_index : Nat) : Nat := 8 <<< chunk_index

/-- `fn cummulative_chunk_size(chunk_index) { (8 << (chunk_index + 1)) - 8 }` -/
def cummulative_chunk_size (chunk_index : Nat) : Nat := (8 <<< (chunk_index + 1)) - 8

/-- `pub struct ChunkedVec<T> { chunks: Vec<Vec<T>> }` -/
structure ChunkedVec (T : Type) where
  chunks : List (Chunk T)
deriving DecidableEq

/-- `ChunkedVec::new`. -/
def ChunkedVec.new {T : Type} : ChunkedVec T := ⟨[]⟩

/-- The loop body of `ChunkedVec::len`: walk the enumerated chunks in
reverse order; at the first non-empty chunk `(i, chunk)` return
`cummulative_chunk_size(i) - (chunk.capacity() - chunk.len())`. -/
def lenGo {T : Type} : List (Nat × Chunk T) → Nat
  | [] => 0
  | (i, c) :: rest =>
    if c.data.isEmpty then lenGo rest
    else cummulative_chunk_size i - (c.cap - c.data.length)

/-- `ChunkedVec::len`. -/
def ChunkedVec.len {T : Type} (v : ChunkedVec T) : Nat :=
  lenGo v.chunks.enum.reverse

/-- The `last_mut` logic of `ChunkedVec::push`, expressed as recursion down
to the last chunk.  `d` is the index of the first chunk of the argument
list, so when a fresh chunk is opened after a full last chunk at index `d`
its capacity is `chunk_size (d+1) = chunk_size (chunks.len())`, and when the
vector has no chunk at all the first chunk gets `chunk_size 0`. -/
def pushGo {T : Type} (x : T) : Nat → List (Chunk T) → List (Chunk T)
  | d, [] => [⟨[x], chunk_size d⟩]
  | d, [c] =>
    if c.data.length < c.cap then [⟨c.data ++ [x], c.cap⟩]
    else [c, ⟨[x], chunk_size (d + 1)⟩]
  | d, c :: c2 :: rest => c :: pushGo x (d + 1) (c2 :: rest)

/-- `ChunkedVec::push`. -/
def ChunkedVec.push {T : Type} (v : ChunkedVec T) (x : T) : ChunkedVec T :=
  ⟨pushGo x 0 v.chunks⟩

/-- `ChunkedVec::is_empty`:
`self.chunks.first().map_or(true, |chunk| chunk.is_empty())`. -/
def ChunkedVec.is_empty {T : Type} (v : ChunkedVec T) : Bool :=
  match v.chunks with
  | [] => true
  | c :: _ => c.data.isEmpty

/-- The element sequence of the vector, i.e. the `flat_map` over chunks used
by `iter`/`into_iter`. -/
def ChunkedVec.toList {T : Type} (v : ChunkedVec T) : List T :=
  (v.chunks.map Chunk.data).flatten

/-- `struct ExactSizeIter<I> { iter: I, len: usize }`, with the underlying
`flat_map` iterator represented by the list of elements it will yield. -/
structure ExactSizeIter (T : Type) where
  items : List T
  len : Nat
deriving DecidableEq

/-- `Iterator::next` for `ExactSizeIter`:
`self.iter.next().inspect(|_| self.len -= 1)`. -/
def ExactSizeIter.next {T : Type} (it : ExactSizeIter T) :
    Option T × ExactSizeIter T :=
  match it.items with
  | [] => (none, it)
  | x :: rest => (some x, ⟨rest, it.len - 1⟩)

/-- `Iterator::size_hint` for `ExactSizeIter`: `(self.len, Some(self.len))`. -/
def ExactSizeIter.size_hint {T : Type} (it : ExactSizeIter T) : Nat × Option Nat :=
  (it.len, some it.len)

/-- Advance the iterator `k` times. -/
def ExactSizeIter.drop {T : Type} : ExactSizeIter T → Nat → ExactSizeIter T
  | it, 0 => it
  | it, k + 1 => ExactSizeIter.drop it.next.2 k

/-- `ChunkedVec::into_iter`: the flattened elements, with `len` computed by
`self.len()` before iteration begins. -/
def ChunkedVec.into_iter {T : Type} (v : ChunkedVec T) : ExactSizeIter T :=
  ⟨v.toList, v.len⟩

/-- `ChunkedVec::iter` (borrowing form; same element sequence and length). -/
def ChunkedVec.iter {T : Type} (v : ChunkedVec T) : ExactSizeIter T :=
  ⟨v.toList, v.len⟩

/-- Push a whole list of elements in order (helper for statements about a
sequence of `push` operations). -/
def ChunkedVec.pushList {T : Type} (v : ChunkedVec T) (xs : List T) : ChunkedVec T :=
  xs.foldl ChunkedVec.push v

/-- Well-formedness of the chunk list starting at chunk index `d`: every
chunk has the capacity `chunk_size` prescribes for its index, every chunk
but the last is completely full, and the last chunk is non-empty and within
capacity.  This is exactly the shape `push` maintains: it completely fills a
chunk before opening the next one. -/
def goodChunks {T : Type} : Nat → List (Chunk T) → Prop
  | _, [] => True
  | d, [c] => c.cap = chunk_size d ∧ c.data.length ≤ c.cap ∧ c.data ≠ []
  | d, c :: c2 :: rest =>
    c.cap = chunk_size d ∧ c.data.length = c.cap ∧ goodChunks (d + 1) (c2 :: rest)

/-! ### ChunkedVec lemmas -/

theorem chunk_size_eq (i : Nat) : chunk_size i = 8 * 2 ^ i := by
  simp [chunk_size, Nat.shiftLeft_eq]

theorem chunk_size_pos (i : Nat) : 0 < chunk_size i := by
  rw [chunk_size_eq]
  positivity

theorem chunk_size_ge_eight (i : Nat) : 8 ≤ chunk_size i := by
  rw [chunk_size_eq]
  have := Nat.one_le_two_pow (n := i)
  omega

theorem chunk_size_succ (i : Nat) : chunk_size (i + 1) = 2 * chunk_size i := by
  rw [chunk_size_eq, chunk_size_eq, pow_succ]
  ring

theorem cummulative_eq (i : Nat) : cummulative_chunk_size i = chunk_size (i + 1) - 8 := by
  simp [cummulative_chunk_size, chunk_size]

theorem lenGo_cons_empty {T : Type} (i : Nat) (c : Chunk T)
    (rest : List (Nat × Chunk T)) (h : c.data.isEmpty = true) :
    lenGo ((i, c) :: rest) = lenGo rest := by
  simp [lenGo, h]

theorem lenGo_cons_nonempty {T : Type} (i : Nat) (c : Chunk T)
    (rest : List (Nat × Chunk T)) (h : c.data.isEmpty = false) :
    lenGo ((i, c) :: rest) = cummulative_chunk_size i - (c.cap - c.data.length) := by
  simp [lenGo, h]

theorem goodChunks_data_ne {T : Type} :
    ∀ (l : List (Chunk T)) (d : Nat), goodChunks d l → ∀ c ∈ l, c.data ≠ [] := by
  intro l
  induction l with
  | nil => intro d _ c hc; cases hc
  | cons a rest ih =>
    intro d hg c hc
    cases rest with
    | nil =>
      rcases hg with ⟨_, _, hne⟩
      rcases List.mem_cons.mp hc with h | h
      · exact h ▸ hne
      · cases h
    | cons b rest' =>
      rcases hg with ⟨hcap, hfull, hrest⟩
      rcases List.mem_cons.mp hc with h | h
      · subst h
        have hpos : 0 < c.data.length := by
          rw [hfull, hcap]; exact chunk_size_pos d
        exact List.ne_nil_of_length_pos hpos
      · exact ih (d + 1) hrest c h

theorem lenGo_append {T : Type} :
    ∀ (A B : List (Nat × Chunk T)), (∃ p ∈ A, p.2.data ≠ []) →
      lenGo (A ++ B) = lenGo A := by
  intro A
  induction A with
  | nil => intro B h; rcases h with ⟨p, hp, _⟩; cases hp
  | cons a A' ih =>
    intro B h
    rcases a with ⟨i, c⟩
    by_cases hc : c.data.isEmpty
    · have hne : ∃ p ∈ A', p.2.data ≠ [] := by
        rcases h with ⟨p, hp, hpd⟩
        rcases List.mem_cons.mp hp with h1 | h1
        · exfalso
          apply hpd
          rw [h1]
          exact List.isEmpty_iff.mp hc
        · exact ⟨p, h1, hpd⟩
      rw [List.cons_append, lenGo_cons_empty i c _ hc, lenGo_cons_empty i c _ hc]
      exact ih B hne
    · have hc' : c.data.isEmpty = false := by
        simpa using hc
      rw [List.cons_append, lenGo_cons_nonempty i c _ hc', lenGo_cons_nonempty i c _ hc']

theorem mem_enumFrom_of_mem {T : Type} :
    ∀ (l : List (Chunk T)) (n : Nat) (c : Chunk T), c ∈ l →
      ∃ i, (i, c) ∈ List.enumFrom n l := by
  intro l
  induction l with
  | nil => intro n c hc; cases hc
  | cons a rest ih =>
    intro n c hc
    rcases List.mem_cons.mp hc with h | h
    · exact ⟨n, by rw [h]; exact List.mem_cons_self _ _⟩
    · rcases ih (n + 1) c h with ⟨i, hi⟩
      exact ⟨i, List.mem_cons_of_mem _ hi⟩

theorem lenGo_enumFrom {T : Type} :
    ∀ (l : List (Chunk T)) (d : Nat), goodChunks d l → l ≠ [] →
      lenGo (List.enumFrom d l).reverse =
        (chunk_size d - 8) + ((l.map Chunk.data).flatten).length := by
  intro l
  induction l with
  | nil => intro d _ h; exact absurd rfl h
  | cons c rest ih =>
    intro d hg _
    cases rest with
    | nil =>
      rcases hg with ⟨hcap, hle, hne⟩
      have hnem : c.data.isEmpty = false := List.isEmpty_eq_false.mpr hne
      have step : (List.enumFrom d [c]).reverse = [(d, c)] := rfl
      rw [step, lenGo_cons_nonempty d c [] hnem, hcap, cummulative_eq, chunk_size_succ]
      have h8 := chunk_size_ge_eight d
      have hle' : c.data.length ≤ chunk_size d := hcap ▸ hle
      simp only [List.map_cons, List.map_nil, List.flatten_cons, List.flatten_nil,
        List.append_nil]
      omega
    | cons c2 rest' =>
      rcases hg with ⟨hcap, hfull, hrest⟩
      have hApos : ∃ p ∈ (List.enumFrom (d + 1) (c2 :: rest')).reverse, p.2.data ≠ [] := by
        have hc2 : c2.data ≠ [] :=
          goodChunks_data_ne (c2 :: rest') (d + 1) hrest c2 (List.mem_cons_self _ _)
        rcases mem_enumFrom_of_mem (c2 :: rest') (d + 1) c2 (List.mem_cons_self _ _) with ⟨i, hi⟩
        exact ⟨(i, c2), List.mem_reverse.mpr hi, hc2⟩
      have step : (List.enumFrom d (c :: c2 :: rest')).reverse =
          (List.enumFrom (d + 1) (c2 :: rest')).reverse ++ [(d, c)] := by
        rw [show List.enumFrom d (c :: c2 :: rest') =
          (d, c) :: List.enumFrom (d + 1) (c2 :: rest') from rfl, List.reverse_cons]
      rw [step, lenGo_append _ _ hApos, ih (d + 1) hrest (by simp)]
      have hsucc := chunk_size_succ d
      have h8 := chunk_size_ge_eight d
      simp only [List.map_cons, List.flatten_cons, List.length_append]
      rw [hfull, hcap]
      omega

/-- `len` is exact on well-formed vectors. -/
theorem len_eq_toList_length {T : Type} (v : ChunkedVec T)
    (hg : goodChunks 0 v.chunks) : v.len = v.toList.length := by
  rcases v with ⟨l⟩
  cases l with
  | nil => rfl
  | cons c rest =>
    have h := lenGo_enumFrom (c :: rest) 0 hg (by simp)
    show lenGo (List.enum (c :: rest)).reverse = _
    rw [show List.enum (c :: rest) = List.enumFrom 0 (c :: rest) from rfl, h]
    have h8 : chunk_size 0 = 8 := by simp [chunk_size]
    rw [h8]
    simp [ChunkedVec.toList]

theorem pushGo_ne_nil {T : Type} (x : T) :
    ∀ (d : Nat) (l : List (Chunk T)), pushGo x d l ≠ [] := by
  intro d l
  match l with
  | [] => simp [pushGo]
  | [c] =>
    by_cases h : c.data.length < c.cap <;> simp [pushGo, h]
  | c :: c2 :: rest => simp [pushGo]

theorem pushGo_spec {T : Type} (x : T) :
    ∀ (l : List (Chunk T)) (d : Nat), goodChunks d l →
      goodChunks d (pushGo x d l) ∧
        ((pushGo x d l).map Chunk.data).flatten = (l.map Chunk.data).flatten ++ [x] := by
  intro l
  induction l with
  | nil =>
    intro d _
    refine ⟨⟨rfl, ?_, by simp⟩, by simp [pushGo]⟩
    have := chunk_size_ge_eight d
    simp only [List.length_cons, List.length_nil]
    omega
  | cons c rest ih =>
    intro d hg
    cases rest with
    | nil =>
      rcases hg with ⟨hcap, hle, hne⟩
      by_cases hlt : c.data.length < c.cap
      · constructor
        · simp only [pushGo, hlt, if_true]
          refine ⟨hcap, ?_, by simp⟩
          simp only [List.length_append, List.length_cons, List.length_nil]
          omega
        · simp [pushGo, hlt]
      · constructor
        · simp only [pushGo, hlt, if_false]
          exact ⟨hcap, by omega, ⟨rfl, by simpa using chunk_size_pos (d + 1), by simp⟩⟩
        · simp [pushGo, hlt]
    | cons c2 rest' =>
      rcases hg with ⟨hcap, hfull, hrest⟩
      rcases ih (d + 1) hrest with ⟨ihg, ihjoin⟩
      have hne : pushGo x (d + 1) (c2 :: rest') ≠ [] := pushGo_ne_nil x (d + 1) (c2 :: rest')
      constructor
      · show goodChunks d (c :: pushGo x (d + 1) (c2 :: rest'))
        cases hres : pushGo x (d + 1) (c2 :: rest') with
        | nil => exact absurd hres hne
        | cons z zs =>
          rw [hres] at ihg
          exact ⟨hcap, hfull, ihg⟩
      · show ((c :: pushGo x (d + 1) (c2 :: rest')).map Chunk.data).flatten =
          (((c :: c2 :: rest').map Chunk.data).flatten) ++ [x]
        simp only [List.map_cons, List.flatten_cons] at ihjoin ⊢
        rw [ihjoin]
        simp [List.append_assoc]

theorem pushList_spec {T : Type} :
    ∀ (xs : List T) (v : ChunkedVec T), goodChunks 0 v.chunks →
      goodChunks 0 (v.pushList xs).chunks ∧
        (v.pushList xs).toList = v.toList ++ xs := by
  intro xs
  induction xs with
  | nil => intro v h; exact ⟨h, by simp [ChunkedVec.pushList]⟩
  | cons x xs ih =>
    intro v h
    have hstep := pushGo_spec x v.chunks 0 h
    have h1 : goodChunks 0 (v.push x).chunks := hstep.1
    have h2 : (v.push x).toList = v.toList ++ [x] := hstep.2
    have hfold : v.pushList (x :: xs) = (v.push x).pushList xs := rfl
    rcases ih (v.push x) h1 with ⟨ihg, ihl⟩
    refine ⟨hfold ▸ ihg, ?_⟩
    rw [hfold, ihl, h2, List.append_assoc]
    rfl

theorem drop_len {T : Type} :
    ∀ (k : Nat) (it : ExactSizeIter T), it.len = it.items.length →
      (it.drop k).len = it.len - k ∧ (it.drop k).len = (it.drop k).items.length := by
  intro k
  induction k with
  | zero => intro it h; exact ⟨rfl, h⟩
  | succ k ih =>
    intro it h
    cases hit : it.items with
    | nil =>
      have hnext : it.next = (none, it) := by
        simp [ExactSizeIter.next, hit]
      have hdrop : it.drop (k + 1) = it.drop k := by
        show ExactSizeIter.drop it.next.2 k = _
        rw [hnext]
      have hlen : it.len = 0 := by rw [h, hit]; rfl
      rcases ih it h with ⟨ih1, ih2⟩
      rw [hdrop]
      omega
    | cons y ys =>
      have hnext : it.next = (some y, ⟨ys, it.len - 1⟩) := by
        simp [ExactSizeIter.next, hit]
      have hdrop : it.drop (k + 1) = ExactSizeIter.drop ⟨ys, it.len - 1⟩ k := by
        show ExactSizeIter.drop it.next.2 k = _
        rw [hnext]
      have hlen : it.len = ys.length + 1 := by rw [h, hit]; rfl
      have h' : (ExactSizeIter.mk ys (it.len - 1)).len = (ExactSizeIter.mk ys (it.len - 1)).items.length := by
        show it.len - 1 = ys.length
        omega
      rcases ih ⟨ys, it.len - 1⟩ h' with ⟨ih1, ih2⟩
      constructor
      · rw [hdrop, ih1]
        show it.len - 1 - k = it.len - (k + 1)
        omega
      · rw [hdrop]
        exact ih2

theorem goodChunks_is_empty_iff {T : Type} (v : ChunkedVec T)
    (hg : goodChunks 0 v.chunks) : v.is_empty = true ↔ v.toList = [] := by
  rcases v with ⟨l⟩
  cases l with
  | nil => simp [ChunkedVec.is_empty, ChunkedVec.toList]
  | cons c rest =>
    have hne : c.data ≠ [] :=
      goodChunks_data_ne (c :: rest) 0 hg c (List.mem_cons_self _ _)
    constructor
    · intro h
      exact absurd (List.isEmpty_iff.mp h) hne
    · intro h
      exfalso
      apply hne
      have : c.data ++ (rest.map Chunk.data).flatten = [] := by
        simpa [ChunkedVec.toList] using h
      exact List.append_eq_nil.mp this |>.1

/-- C10: starting from `ChunkedVec::new`, after pushing the elements of
`xs` in order, `len()` returns the number of pushed elements, `is_empty()`
is true exactly when nothing was pushed, `iter()`/`into_iter()` yield
exactly the pushed elements in insertion order, the `size_hint` after any
number of `next` steps equals the number of elements remaining, and the
chunk shape invariant holds: `push` completely fills each chunk of capacity
`8 << index` before opening the next chunk, which makes `len()`'s
computation over the last non-empty chunk exact. -/
theorem C10_chunked_vec_push_len_iter {T : Type} (xs : List T) :
    (ChunkedVec.pushList ChunkedVec.new xs).len = xs.length
    ∧ ((ChunkedVec.pushList ChunkedVec.new xs).is_empty = true ↔ xs.length = 0)
    ∧ (ChunkedVec.pushList ChunkedVec.new xs).toList = xs
    ∧ (ChunkedVec.pushList ChunkedVec.new xs).iter.items = xs
    ∧ (ChunkedVec.pushList ChunkedVec.new xs).into_iter.items = xs
    ∧ (∀ k, ((ChunkedVec.pushList ChunkedVec.new xs).into_iter.drop k).size_hint
        = (xs.length - k, some (xs.length - k)))
    ∧ goodChunks 0 (ChunkedVec.pushList ChunkedVec.new xs).chunks := by
  have h0 : goodChunks 0 (ChunkedVec.new (T := T)).chunks := trivial
  rcases pushList_spec xs ChunkedVec.new h0 with ⟨hg, hl⟩
  have hto : (ChunkedVec.pushList ChunkedVec.new xs).toList = xs := by
    simpa [ChunkedVec.new, ChunkedVec.toList] using hl
  have hlen : (ChunkedVec.pushList ChunkedVec.new xs).len = xs.length := by
    rw [len_eq_toList_length _ hg, hto]
  refine ⟨hlen, ?_, hto, ?_, ?_, ?_, hg⟩
  · rw [goodChunks_is_empty_iff _ hg, hto, List.length_eq_zero]
  · simp [ChunkedVec.iter, hto]
  · simp [ChunkedVec.into_iter, hto]
  · intro k
    have hinv : (ChunkedVec.pushList ChunkedVec.new xs).into_iter.len
        = (ChunkedVec.pushList ChunkedVec.new xs).into_iter.items.length := by
      simp [ChunkedVec.into_iter, hto, hlen]
    rcases drop_len k _ hinv with ⟨h1, _⟩
    have h2 : (ChunkedVec.pushList ChunkedVec.new xs).into_iter.len = xs.length := by
      simp [ChunkedVec.into_iter, hlen]
    rw [ExactSizeIter.size_hint, h1, h2]

/-! ## Memory backend data model
(crates/turbo-tasks-memory/src/memory_backend.rs plus spec-modelled
collaborators) -/

/-- Task ids are densely packed small integers (spec 3). -/
abbrev TaskId := Nat

/-- Background job ids come from their own allocator (spec 4.7). -/
abbrev BackgroundJobId := Nat

/-- Modelled from the spec: the `IdFactory` id allocator of
`turbo_tasks::util` (not under src).  Spec 4.1: it vends ids from a
free-list that reclaims removed ids; `reuse` hands an id back. -/
structure IdFactory where
  free : List Nat
  next : Nat
deriving DecidableEq

/-- Modelled from the spec: `IdFactory::get` takes from the free-list if
possible, otherwise vends the next fresh id (spec 4.1). -/
def IdFactory.get : IdFactory → Nat × IdFactory
  | ⟨f :: rest, n⟩ => (f, ⟨rest, n⟩)
  | ⟨[], n⟩ => (n, ⟨[], n + 1⟩)

/-- Modelled from the spec: `IdFactory::reuse` returns an id through the
explicit reuse call (spec 4.1). -/
def IdFactory.reuse (fac : IdFactory) (id : Nat) : IdFactory :=
  ⟨id :: fac.free, fac.next⟩

/-- Modelled from the spec: lookup in the `NoMoveVec` dense store / the
concurrent cache (not under src), represented as an association list
(spec 4.1: `get(id)`). -/
def storeGet {κ α : Type} [DecidableEq κ] : List (κ × α) → κ → Option α
  | [], _ => none
  | (k, v) :: rest, id => if k = id then some v else storeGet rest id

/-- Modelled from the spec: `NoMoveVec::insert` at a fresh id (spec 4.1). -/
def storeInsert {κ α : Type} (s : List (κ × α)) (id : κ) (v : α) : List (κ × α) :=
  (id, v) :: s

/-- Modelled from the spec: `NoMoveVec::remove`/`take` erase the entry of an
id (spec 4.1). -/
def storeRemove {κ α : Type} [DecidableEq κ] : List (κ × α) → κ → List (κ × α)
  | [], _ => []
  | (k, v) :: rest, id =>
    if k = id then storeRemove rest id else (k, v) :: storeRemove rest id

/-- Replace the value stored at an id (the in-place mutation performed
through a task's per-task lock). -/
def storeSet {κ α : Type} [DecidableEq κ] : List (κ × α) → κ → α → List (κ × α)
  | [], _, _ => []
  | (k, v) :: rest, id, t =>
    if k = id then (k, t) :: rest else (k, v) :: storeSet rest id t

/-- `RawVc`: a reference to a task output or a task slot. -/
inductive RawVc
  | TaskOutput (task : TaskId)
  | TaskSlot (task : TaskId) (index : Nat)
deriving DecidableEq

/-- `PersistentTaskType`: the memoization fingerprint (spec 3).  Function
and trait ids are numbers, inputs are opaque numbered values. -/
inductive PersistentTaskType
  | Native (fn_id : Nat) (inputs : List Nat)
  | ResolveNative (fn_id : Nat) (inputs : List Nat)
  | ResolveTrait (trait_type : Nat) (trait_fn_name : String) (inputs : List Nat)
deriving DecidableEq

/-- `TransientTaskType`: `Root(f)` or `Once(f)` with an opaque body token
standing for the caller-provided closure. -/
inductive TransientTaskType
  | Root (f : Nat)
  | Once (f : Nat)
deriving DecidableEq

deriving instance DecidableEq for Except

/-- The value stored in an output cell: the task body's `Result<RawVc>` —
a failure is stored as a first-class value (spec 7). -/
abbrev OutputContent := Except String RawVc

/-- Modelled from the spec: the `Output` cell of `output.rs` (not under
src).  Spec 4.2: an optional value plus the set of reader task ids. -/
structure Output where
  content : Option OutputContent
  readers : List TaskId
deriving DecidableEq

/-- Modelled from the spec: `Output::read(reader)` — the cell is populated
when this runs (the caller checked); it records `reader` in the readers set
and returns the value (spec 4.2).  The empty case yields the stored error
shape and is unreachable under the populated guard. -/
def Output.read (o : Output) (reader : TaskId) : OutputContent × Output :=
  match o.content with
  | some v =>
    (v, ⟨some v, if reader ∈ o.readers then o.readers else o.readers ++ [reader]⟩)
  | none => (Except.error "empty output", o)

/-- Modelled from the spec: `Output::read_untracked` — same value but does
not mutate the readers set (spec 4.2). -/
def Output.read_untracked (o : Output) : OutputContent × Output :=
  match o.content with
  | some v => (v, o)
  | none => (Except.error "empty output", o)

/-- Modelled from the spec: `Output::write(value)` — compares structurally
with the prior value; if unchanged, no-op; if changed or previously empty,
stores the new value, clears the readers and returns the old readers set
for invalidation (spec 4.2). -/
def Output.write (o : Output) (v : OutputContent) : List TaskId × Output :=
  match o.content with
  | some old => if old = v then ([], o) else (o.readers, ⟨some v, []⟩)
  | none => (o.readers, ⟨some v, []⟩)

/-- Slot cell payloads are opaque values with structural equality
(`SlotContent`). -/
abbrev SlotContent := Nat

/-- Modelled from the spec: a slot cell of the slot vector (not under src).
Spec 4.3 / 3: an optional value plus a set of reader task ids. -/
structure Slot where
  content : Option SlotContent
  readers : List TaskId
deriving DecidableEq

/-- Modelled from the spec: `Slot::assign(content)` — sets the slot; if the
content changed, returns the prior readers so dependents may be invalidated
(spec 4.3), mirroring the write comparison of spec 4.2. -/
def Slot.assign (s : Slot) (c : SlotContent) : List TaskId × Slot :=
  match s.content with
  | some old => if old = c then ([], s) else (s.readers, ⟨some c, []⟩)
  | none => (s.readers, ⟨some c, []⟩)

/-- `Dirty`, `Scheduled`, `InProgress(e)`, `InProgressDirty(e)`, `Done`
(spec 3). -/
inductive TaskStateType
  | Dirty
  | Scheduled
  | InProgress (epoch : Nat)
  | InProgressDirty (epoch : Nat)
  | Done
deriving DecidableEq

/-- The slot-mapping side table: call-site token to stable slot index
(spec 4.4). -/
abbrev SlotMappings := List (Nat × Nat)

/-- The closed union of task kinds (spec 3). -/
inductive TaskKind
  | Native (fn_id : Nat) (inputs : List Nat)
  | ResolveNative (fn_id : Nat) (inputs : List Nat)
  | ResolveTrait (trait_type : Nat) (trait_fn_name : String) (inputs : List Nat)
  | Root (f : Nat)
  | Once (f : Nat)
deriving DecidableEq

/-- Modelled from the spec: the `Task` record of `task.rs` (not under src).
Spec 3: kind and inputs, state, output cell, slots, slot mappings, children
and active count; the execution epoch increases when execution starts. -/
structure Task where
  id : TaskId
  kind : TaskKind
  state : TaskStateType
  epoch : Nat
  output : Output
  slots : List Slot
  slotMappings : SlotMappings
  children : List TaskId
  activeCount : Nat
deriving DecidableEq

/-- Modelled from the spec: `Task::new_native` — a persistent task starts
`Dirty` with an empty output, no slots and active count 0 (spec 3, 4.6). -/
def Task.new_native (id : TaskId) (inputs : List Nat) (fn_id : Nat) : Task :=
  ⟨id, TaskKind.Native fn_id inputs, TaskStateType.Dirty, 0, ⟨none, []⟩, [], [], [], 0⟩

/-- Modelled from the spec: `Task::new_resolve_native` (spec 3). -/
def Task.new_resolve_native (id : TaskId) (inputs : List Nat) (fn_id : Nat) : Task :=
  ⟨id, TaskKind.ResolveNative fn_id inputs, TaskStateType.Dirty, 0, ⟨none, []⟩, [], [], [], 0⟩

/-- Modelled from the spec: `Task::new_resolve_trait` (spec 3). -/
def Task.new_resolve_trait (id : TaskId) (trait_type : Nat) (trait_fn_name : String)
    (inputs : List Nat) : Task :=
  ⟨id, TaskKind.ResolveTrait trait_type trait_fn_name inputs, TaskStateType.Dirty, 0,
    ⟨none, []⟩, [], [], [], 0⟩

/-- Modelled from the spec: `Task::new_root` — a transient task starts
`Scheduled` and carries the implicit root anchor (+1 active count)
(spec 3, 4.5). -/
def Task.new_root (id : TaskId) (f : Nat) : Task :=
  ⟨id, TaskKind.Root f, TaskStateType.Scheduled, 0, ⟨none, []⟩, [], [], [], 1⟩

/-- Modelled from the spec: `Task::new_once` (spec 3, 4.5). -/
def Task.new_once (id : TaskId) (f : Nat) : Task :=
  ⟨id, TaskKind.Once f, TaskStateType.Scheduled, 0, ⟨none, []⟩, [], [], [], 1⟩

/-- Modelled from the spec: `Task::execution_started` — `Scheduled →
InProgress(new_epoch)` returning true; any other state returns false and
leaves the task untouched (spec 4.4). -/
def Task.execution_started (t : Task) : Bool × Task :=
  match t.state with
  | TaskStateType.Scheduled =>
    (true, { t with state := TaskStateType.InProgress (t.epoch + 1), epoch := t.epoch + 1 })
  | _ => (false, t)

/-- Modelled from the spec: `Task::take_slot_mappings` — returns the
slot-mapping side table and leaves it empty on the task (spec 4.4). -/
def Task.take_slot_mappings (t : Task) : SlotMappings × Task :=
  (t.slotMappings, { t with slotMappings := [] })

/-- Modelled from the spec: `Task::execute` yields the task body's future;
represented by the kind tag the dispatch is performed on (spec 4.4, 9). -/
def Task.execute (t : Task) : TaskKind := t.kind

/-- Modelled from the spec: `Task::execution_result(result)` — stores the
result in the output cell via the write path; the returned readers are the
old readers to invalidate (spec 4.4). -/
def Task.execution_result (t : Task) (result : OutputContent) : List TaskId × Task :=
  let (oldReaders, o) := t.output.write result
  (oldReaders, { t with output := o })

/-- Modelled from the spec: `Task::execution_completed` at the end of epoch
`e` — `InProgress(e) → Done` (no re-schedule), `InProgressDirty(e) → Dirty`
and report that re-execution is required; an epoch mismatch is a stale
completion and is ignored (spec 4.4).  The new slot mappings are stored. -/
def Task.execution_completed (t : Task) (e : Nat) (m : Option SlotMappings) : Bool × Task :=
  match t.state with
  | TaskStateType.InProgress e2 =>
    if e2 = e then
      (false, { t with state := TaskStateType.Done, slotMappings := m.getD t.slotMappings })
    else (false, t)
  | TaskStateType.InProgressDirty e2 =>
    if e2 = e then
      (true, { t with state := TaskStateType.Dirty, slotMappings := m.getD t.slotMappings })
    else (false, t)
  | _ => (false, t)

/-- `BackgroundJob`: `RemoveTasks` or `DeactivateTasks` with their payloads
(memory_backend.rs).  The `HashSet` of `RemoveTasks` is represented as a
list of ids. -/
inductive BackgroundJob
  | RemoveTasks (tasks : List TaskId)
  | DeactivateTasks (tasks : List TaskId)
deriving DecidableEq

/-- The backend state: the four fields of `struct MemoryBackend`
(`memory_tasks`, `background_jobs`, `background_job_id_factory`,
`task_cache`), together with the externally owned pieces every operation
threads through — the task `IdFactory` the runtime passes in, the
`TurboTasksApi` effects (`schedule` and slot-change notifications recorded
as logs), the thread-local dependency set of the currently executing task
(`Task::add_dependency_to_current`), and a ghost counter of `Task::new_*`
constructor invocations used to state the memoization claims. -/
structure MemoryBackend where
  memory_tasks : List (TaskId × Task)
  background_jobs : List (BackgroundJobId × BackgroundJob)
  background_job_id_factory : IdFactory
  task_cache : List (PersistentTaskType × TaskId)
  task_id_factory : IdFactory
  scheduled : List TaskId
  notified : List TaskId
  current_deps : List RawVc
  new_task_calls : Nat
deriving DecidableEq

/-- Modelled from the spec: the activation fan-out of
`Task::connect_child` (task.rs, not under src).  Spec 4.5: increment the
child's active count; when it goes from 0 to positive, mark a `Dirty` task
for scheduling and recursively propagate +1 to its children.  The fuel
bounds the recursion depth; each recursive level activates a task whose
count was 0, so a fuel of one more than the store size suffices. -/
def increment_active_fanout : Nat → MemoryBackend → TaskId → MemoryBackend
  | 0, w, _ => w
  | fuel + 1, w, id =>
    match storeGet w.memory_tasks id with
    | none => w
    | some t =>
      let w1 := { w with
        memory_tasks := storeSet w.memory_tasks id { t with activeCount := t.activeCount + 1 } }
      if t.activeCount = 0 then
        let w2 :=
          if t.state = TaskStateType.Dirty then { w1 with scheduled := w1.scheduled ++ [id] }
          else w1
        t.children.foldl (increment_active_fanout fuel) w2
      else w1

/-- Modelled from the spec: `Task::connect_child(child)` invoked through
`MemoryBackend::connect_task_child` (memory_backend.rs lines 34-38).  Spec
4.5: if the child is not yet in the parent's children set, insert it, and if
the parent is active propagate a +1 to the child.  `with_task` unwraps the
store lookup, so an unknown parent id is a panic, modelled as `none`. -/
def connect_task_child (w : MemoryBackend) (parent child : TaskId) :
    Option MemoryBackend :=
  match storeGet w.memory_tasks parent with
  | none => none
  | some p =>
    if child ∈ p.children then some w
    else
      let w1 := { w with
        memory_tasks := storeSet w.memory_tasks parent { p with children := p.children ++ [child] } }
      if p.activeCount > 0 then
        some (increment_active_fanout (w1.memory_tasks.length + 1) w1 child)
      else some w1

/-- `MemoryBackend::create_background_job`: take an id from the background
job id factory and insert the job at that fresh id. -/
def create_background_job (w : MemoryBackend) (job : BackgroundJob) :
    BackgroundJobId × MemoryBackend :=
  let (id, fac) := w.background_job_id_factory.get
  (id, { w with
    background_job_id_factory := fac,
    background_jobs := storeInsert w.background_jobs id job })

/-- Modelled from the spec: `Task::remove` (task.rs, not under src).  Spec
4.5: erase the task's entry from the memoization cache under its
fingerprint, tear down its storage, remove it from all neighbors' edge sets
(children sets, output readers, slot readers) and return its id for
reuse. -/
def remove_task (w : MemoryBackend) (id : TaskId) : MemoryBackend :=
  { w with
    task_cache := w.task_cache.filter (fun e => e.2 ≠ id),
    memory_tasks := (storeRemove w.memory_tasks id).map (fun e =>
      (e.1, { e.2 with
        children := e.2.children.filter (fun c => c ≠ id),
        output := { e.2.output with readers := e.2.output.readers.filter (fun r => r ≠ id) },
        slots := e.2.slots.map (fun s =>
          { s with readers := s.readers.filter (fun r => r ≠ id) }) })),
    task_id_factory := w.task_id_factory.reuse id }

/-- Modelled from the spec: the deactivation fan-out of
`Task::deactivate_tasks` (task.rs, not under src).  Spec 4.5/4.7: decrement
the active count; when it goes from positive to 0, propagate the decrement
through the children.  Fuelled like the activation fan-out. -/
def decrement_active_fanout : Nat → MemoryBackend → TaskId → MemoryBackend
  | 0, w, _ => w
  | fuel + 1, w, id =>
    match storeGet w.memory_tasks id with
    | none => w
    | some t =>
      let w1 := { w with
        memory_tasks := storeSet w.memory_tasks id { t with activeCount := t.activeCount - 1 } }
      if t.activeCount = 1 then t.children.foldl (decrement_active_fanout fuel) w1
      else w1

/-- The `BackgroundJob::run` dispatch (memory_backend.rs lines 260-275):
`RemoveTasks` removes each listed task through `with_task` (panicking —
`none` — on an unknown id); `DeactivateTasks` applies the disconnect
fan-out.  Per spec 4.7 the deactivation job itself is just the fan-out. -/
def BackgroundJob.run (job : BackgroundJob) (w : MemoryBackend) : Option MemoryBackend :=
  match job with
  | BackgroundJob.RemoveTasks tasks =>
    tasks.foldl
      (fun acc id =>
        acc.bind (fun w1 =>
          if (storeGet w1.memory_tasks id).isSome then some (remove_task w1 id) else none))
      (some w)
  | BackgroundJob.DeactivateTasks tasks =>
    some (tasks.foldl (decrement_active_fanout (w.memory_tasks.length + 1)) w)

/-! ### The Backend facade (impl Backend for MemoryBackend) -/

/-- `TaskExecutionSpec`: the slot mappings taken from the task plus the
task's body future (represented by the kind tag `Task::execute` dispatches
on). -/
structure TaskExecutionSpec where
  slot_mappings : Option SlotMappings
  future : TaskKind
deriving DecidableEq

/-- `Task::add_dependency_to_current`: record a read edge into the
dependency set of the currently executing task (thread-local in the
source). -/
def add_dependency_to_current (w : MemoryBackend) (dep : RawVc) : MemoryBackend :=
  { w with current_deps := w.current_deps ++ [dep] }

/-- `MemoryBackend::try_start_task_execution` (lines 81-97): under
`with_task` (panic on unknown id, modelled as the outer `none`), if
`execution_started` reports true, return the spec made of the taken slot
mappings and the body future; otherwise return `None` (the inner
`Option`). -/
def try_start_task_execution (w : MemoryBackend) (task : TaskId) :
    Option (Option TaskExecutionSpec × MemoryBackend) :=
  match storeGet w.memory_tasks task with
  | none => none
  | some t =>
    let (started, t1) := t.execution_started
    if started then
      let (m, t2) := t1.take_slot_mappings
      some (some ⟨some m, Task.execute t1⟩,
        { w with memory_tasks := storeSet w.memory_tasks task t2 })
    else some (none, w)

/-- `MemoryBackend::task_execution_completed` (lines 99-110): under
`with_task`, apply `execution_result` (write the result to the output and
mark the old readers for invalidation) then `execution_completed`, whose
boolean (re-schedule required) is returned.  `e` is the epoch of the run
whose completion is being reported; in the source it is implicit in the
future that completed. -/
def task_execution_completed (w : MemoryBackend) (task : TaskId)
    (slot_mappings : Option SlotMappings) (result : OutputContent) (e : Nat) :
    Option (Bool × MemoryBackend) :=
  match storeGet w.memory_tasks task with
  | none => none
  | some t =>
    let (oldReaders, t1) := t.execution_result result
    let (resched, t2) := t1.execution_completed e slot_mappings
    some (resched,
      { w with
        memory_tasks := storeSet w.memory_tasks task t2,
        notified := w.notified ++ oldReaders })

/-- `MemoryBackend::try_read_task_output` (lines 112-121):
`try_get_output` runs the closure only when the output is available
(`get_or_wait_output`, spec 4.2 — otherwise the `EventListener` is
returned, modelled as the `Except.error ()` shape); the closure records an
`OnOutput` dependency on the current task and reads the output, recording
the reader.  The outer `none` is the `with_task` panic on an unknown id. -/
def try_read_task_output (w : MemoryBackend) (task reader : TaskId) :
    Option (Except Unit OutputContent × MemoryBackend) :=
  match storeGet w.memory_tasks task with
  | none => none
  | some t =>
    match t.output.content with
    | none => some (Except.error (), w)
    | some _ =>
      let w1 := add_dependency_to_current w (RawVc.TaskOutput task)
      let (r, o1) := t.output.read reader
      some (Except.ok r,
        { w1 with memory_tasks := storeSet w1.memory_tasks task { t with output := o1 } })

/-- `MemoryBackend::try_read_task_output_untracked` (lines 123-128): as
above but through `Output::read_untracked`, with no dependency edge. -/
def try_read_task_output_untracked (w : MemoryBackend) (task : TaskId) :
    Option (Except Unit OutputContent × MemoryBackend) :=
  match storeGet w.memory_tasks task with
  | none => none
  | some t =>
    match t.output.content with
    | none => some (Except.error (), w)
    | some _ =>
      let (r, o1) := t.output.read_untracked
      some (Except.ok r,
        { w with memory_tasks := storeSet w.memory_tasks task { t with output := o1 } })

/-- `MemoryBackend::update_task_slot` (lines 147-157): under `with_task`
and `with_slot_mut`, assign the content to the slot; the returned prior
readers are the dependents to invalidate (recorded in the notification
log).  An unknown task id or slot index is a panic (`none`). -/
def update_task_slot (w : MemoryBackend) (task : TaskId) (index : Nat)
    (content : SlotContent) : Option MemoryBackend :=
  match storeGet w.memory_tasks task with
  | none => none
  | some t =>
    match t.slots.get? index with
    | none => none
    | some s =>
      let (oldReaders, s1) := s.assign content
      some { w with
        memory_tasks := storeSet w.memory_tasks task { t with slots := t.slots.set index s1 },
        notified := w.notified ++ oldReaders }

/-- `MemoryBackend::run_background_job` (lines 159-177): take the job out
of the store (`NoMoveVec::take`); if present, run it and, once it
finishes, hand the id back to the background job id factory; if absent,
the returned future does nothing. -/
def run_background_job (w : MemoryBackend) (id : BackgroundJobId) :
    Option MemoryBackend :=
  match storeGet w.background_jobs id with
  | none => some w
  | some job =>
    let w1 := { w with background_jobs := storeRemove w.background_jobs id }
    (job.run w1).map (fun w2 =>
      { w2 with background_job_id_factory := w2.background_job_id_factory.reuse id })

/-- `flurry::HashMap::try_insert`: insert the key if absent; if the key is
already present (another caller won the race), fail returning the current
value. -/
def cacheTryInsert (c : List (PersistentTaskType × TaskId)) (k : PersistentTaskType)
    (id : TaskId) : Except TaskId (List (PersistentTaskType × TaskId)) :=
  match storeGet c k with
  | some existing => Except.error existing
  | none => Except.ok (storeInsert c k id)

/-- `MemoryBackend::get_or_create_persistent_task` (lines 179-233).  On a
cache hit, connect the parent edge and return the cached id.  On a miss,
take a fresh id, construct the task (`Task::new_*`, counted by the ghost
field), insert it into the store and race on `try_insert`: `race` models
the concurrent insertion of the same fingerprint by another caller between
the lookup and the `try_insert` (the CAS of the concurrent map).  If the
insertion is lost, the tentative task is removed from the store, the
tentative id is handed back through the id allocator's reuse path, and the
id already in the cache is adopted. -/
def get_or_create_persistent_task (w : MemoryBackend) (task_type : PersistentTaskType)
    (parent_task : TaskId) (race : Option TaskId) : Option (TaskId × MemoryBackend) :=
  match storeGet w.task_cache task_type with
  | some task =>
    (connect_task_child w parent_task task).map (fun w1 => (task, w1))
  | none =>
    let (id, fac) := w.task_id_factory.get
    let task :=
      match task_type with
      | PersistentTaskType.Native fn_id inputs => Task.new_native id inputs fn_id
      | PersistentTaskType.ResolveNative fn_id inputs => Task.new_resolve_native id inputs fn_id
      | PersistentTaskType.ResolveTrait tt name inputs =>
        Task.new_resolve_trait id tt name inputs
    let w1 := { w with
      task_id_factory := fac,
      memory_tasks := storeInsert w.memory_tasks id task,
      new_task_calls := w.new_task_calls + 1 }
    let cache1 :=
      match race with
      | some winner => storeInsert w1.task_cache task_type winner
      | none => w1.task_cache
    match cacheTryInsert cache1 task_type id with
    | Except.ok cache2 =>
      let w2 := { w1 with task_cache := cache2 }
      (connect_task_child w2 parent_task id).map (fun w3 => (id, w3))
    | Except.error existing =>
      let w2 := { w1 with
        task_cache := cache1,
        memory_tasks := storeRemove w1.memory_tasks id,
        task_id_factory := fac.reuse id }
      (connect_task_child w2 parent_task existing).map (fun w3 => (existing, w3))

/-- `MemoryBackend::create_transient_task` (lines 235-252): always create —
take a fresh id, build the Root or Once task, insert it into the store and
schedule it immediately. -/
def create_transient_task (w : MemoryBackend) (task_type : TransientTaskType) :
    TaskId × MemoryBackend :=
  let (id, fac) := w.task_id_factory.get
  let task :=
    match task_type with
    | TransientTaskType.Root f => Task.new_root id f
    | TransientTaskType.Once f => Task.new_once id f
  (id, { w with
    task_id_factory := fac,
    memory_tasks := storeInsert w.memory_tasks id task,
    new_task_calls := w.new_task_calls + 1,
    scheduled := w.scheduled ++ [id] })

/-! ### Store lemmas -/

theorem storeGet_insert_self {κ α : Type} [DecidableEq κ] (s : List (κ × α)) (id : κ)
    (v : α) : storeGet (storeInsert s id v) id = some v := by
  simp [storeGet, storeInsert]

theorem storeGet_insert_ne {κ α : Type} [DecidableEq κ] (s : List (κ × α)) (k id : κ)
    (v : α) (h : k ≠ id) : storeGet (storeInsert s k v) id = storeGet s id := by
  simp [storeGet, storeInsert, h]

theorem storeRemove_of_get_none {κ α : Type} [DecidableEq κ] :
    ∀ (s : List (κ × α)) (id : κ), storeGet s id = none → storeRemove s id = s := by
  intro s
  induction s with
  | nil => intro id _; rfl
  | cons e rest ih =>
    intro id h
    rcases e with ⟨k, v⟩
    by_cases hk : k = id
    · rw [hk] at h
      simp [storeGet] at h
    · simp only [storeGet, hk, if_false] at h
      simp [storeRemove, hk, ih id h]

theorem storeGet_remove_self {κ α : Type} [DecidableEq κ] :
    ∀ (s : List (κ × α)) (id : κ), storeGet (storeRemove s id) id = none := by
  intro s
  induction s with
  | nil => intro id; rfl
  | cons e rest ih =>
    intro id
    rcases e with ⟨k, v⟩
    by_cases hk : k = id
    · simp [storeRemove, hk, ih id]
    · simp [storeRemove, storeGet, hk, ih id]

theorem storeSet_of_get_self {κ α : Type} [DecidableEq κ] :
    ∀ (s : List (κ × α)) (id : κ) (t : α), storeGet s id = some t → storeSet s id t = s := by
  intro s
  induction s with
  | nil => intro id t h; cases h
  | cons e rest ih =>
    intro id t h
    rcases e with ⟨k, v⟩
    by_cases hk : k = id
    · subst hk
      rw [show storeGet ((k, v) :: rest) k = some v from by simp [storeGet]] at h
      injection h with h
      subst h
      simp [storeSet]
    · simp only [storeGet, hk, if_false] at h
      simp [storeSet, hk, ih id t h]

theorem storeSet_keys {κ α : Type} [DecidableEq κ] :
    ∀ (s : List (κ × α)) (id : κ) (t : α),
      (storeSet s id t).map Prod.fst = s.map Prod.fst := by
  intro s
  induction s with
  | nil => intro id t; rfl
  | cons e rest ih =>
    intro id t
    rcases e with ⟨k, v⟩
    by_cases hk : k = id
    · simp [storeSet, hk]
    · simp [storeSet, hk, ih id t]

theorem storeGet_none_iff {κ α : Type} [DecidableEq κ] :
    ∀ (s : List (κ × α)) (id : κ), storeGet s id = none ↔ id ∉ s.map Prod.fst := by
  intro s
  induction s with
  | nil => intro id; simp [storeGet]
  | cons e rest ih =>
    intro id
    rcases e with ⟨k, v⟩
    by_cases hk : k = id
    · simp [storeGet, hk]
    · simp only [storeGet, hk, if_false, List.map_cons, List.mem_cons]
      rw [ih id]
      constructor
      · intro h hmem
        rcases hmem with h1 | h1
        · exact hk h1.symm
        · exact h h1
      · intro h
        exact fun h1 => h (Or.inr h1)

theorem storeGet_set_self {κ α : Type} [DecidableEq κ] :
    ∀ (s : List (κ × α)) (id : κ) (t : α), storeGet s id ≠ none →
      storeGet (storeSet s id t) id = some t := by
  intro s
  induction s with
  | nil => intro id t h; exact absurd rfl h
  | cons e rest ih =>
    intro id t h
    rcases e with ⟨k, v⟩
    by_cases hk : k = id
    · simp [storeSet, storeGet, hk]
    · simp only [storeGet, hk, if_false] at h
      simp [storeSet, storeGet, hk, ih id t h]

theorem list_set_get_self {α : Type} :
    ∀ (l : List α) (i : Nat) (s : α), l.get? i = some s → l.set i s = l := by
  intro l
  induction l with
  | nil => intro i s h; cases h
  | cons a rest ih =>
    intro i s h
    cases i with
    | zero =>
      simp only [List.get?, Option.some.injEq] at h
      subst h
      rfl
    | succ i =>
      simp only [List.get?] at h
      simp [List.set, ih i s h]

/-! ### Frame lemmas for the activation machinery -/

/-- The components of the backend state that the activation and
deactivation fan-outs never touch: every field except `scheduled` and the
task values, with the store reduced to its key set. -/
def taskFrame (w : MemoryBackend) :
    List TaskId × List (BackgroundJobId × BackgroundJob) × IdFactory ×
      List (PersistentTaskType × TaskId) × IdFactory × List TaskId × List RawVc × Nat :=
  (w.memory_tasks.map Prod.fst, w.background_jobs, w.background_job_id_factory,
    w.task_cache, w.task_id_factory, w.notified, w.current_deps, w.new_task_calls)

theorem foldl_taskFrame (f : MemoryBackend → TaskId → MemoryBackend)
    (hf : ∀ w id, taskFrame (f w id) = taskFrame w) :
    ∀ (l : List TaskId) (w : MemoryBackend), taskFrame (l.foldl f w) = taskFrame w := by
  intro l
  induction l with
  | nil => intro w; rfl
  | cons id rest ih =>
    intro w
    rw [List.foldl_cons, ih (f w id), hf w id]

theorem increment_active_fanout_frame :
    ∀ (fuel : Nat) (w : MemoryBackend) (id : TaskId),
      taskFrame (increment_active_fanout fuel w id) = taskFrame w := by
  intro fuel
  induction fuel with
  | zero => intro w id; rfl
  | succ fuel ih =>
    intro w id
    show taskFrame (increment_active_fanout (fuel + 1) w id) = taskFrame w
    rw [increment_active_fanout]
    cases hget : storeGet w.memory_tasks id with
    | none => rfl
    | some t =>
      simp only
      split
      · rw [foldl_taskFrame _ ih]
        split <;> simp [taskFrame, storeSet_keys]
      · simp [taskFrame, storeSet_keys]

theorem decrement_active_fanout_frame :
    ∀ (fuel : Nat) (w : MemoryBackend) (id : TaskId),
      taskFrame (decrement_active_fanout fuel w id) = taskFrame w := by
  intro fuel
  induction fuel with
  | zero => intro w id; rfl
  | succ fuel ih =>
    intro w id
    rw [decrement_active_fanout]
    cases hget : storeGet w.memory_tasks id with
    | none => rfl
    | some t =>
      simp only
      split
      · rw [foldl_taskFrame _ ih]
        simp [taskFrame, storeSet_keys]
      · simp [taskFrame, storeSet_keys]

theorem connect_task_child_frame (w : MemoryBackend) (parent child : TaskId)
    (w1 : MemoryBackend) (h : connect_task_child w parent child = some w1) :
    taskFrame w1 = taskFrame w := by
  unfold connect_task_child at h
  cases hget : storeGet w.memory_tasks parent with
  | none => rw [hget] at h; cases h
  | some p =>
    rw [hget] at h
    simp only at h
    split at h
    · cases h
      rfl
    · split at h
      · cases h
        rw [increment_active_fanout_frame]
        simp [taskFrame, storeSet_keys]
      · cases h
        simp [taskFrame, storeSet_keys]

/-! ### Claim theorems -/

/-- C9: `create_transient_task` always creates a new task: it never
consults or populates the memoization cache, allocates a fresh id,
constructs a Root or Once task (whose initial state is `Scheduled`),
inserts it into the task store, immediately schedules it with the
executor, and returns the fresh id. -/
theorem C9_create_transient_always_creates (w : MemoryBackend)
    (task_type : TransientTaskType) :
    (create_transient_task w task_type).1 = w.task_id_factory.get.1
    ∧ (∃ t, storeGet (create_transient_task w task_type).2.memory_tasks
          (create_transient_task w task_type).1 = some t
        ∧ t.state = TaskStateType.Scheduled
        ∧ t.kind = (match task_type with
            | TransientTaskType.Root f => TaskKind.Root f
            | TransientTaskType.Once f => TaskKind.Once f))
    ∧ (create_transient_task w task_type).2.task_cache = w.task_cache
    ∧ (create_transient_task w task_type).2.scheduled
        = w.scheduled ++ [(create_transient_task w task_type).1]
    ∧ (create_transient_task w task_type).2.new_task_calls = w.new_task_calls + 1 := by
  rcases hfac : w.task_id_factory.get with ⟨id, fac⟩
  cases task_type with
  | Root f =>
    refine ⟨?_, ⟨Task.new_root id f, ?_, rfl, rfl⟩, rfl, ?_, rfl⟩ <;>
      simp [create_transient_task, hfac, storeGet_insert_self]
  | Once f =>
    refine ⟨?_, ⟨Task.new_once id f, ?_, rfl, rfl⟩, rfl, ?_, rfl⟩ <;>
      simp [create_transient_task, hfac, storeGet_insert_self]

/-- C3: `try_start_task_execution` returns `None` exactly when the task is
not in a runnable state (`execution_started` reports false, e.g. it is
already `InProgress`) and leaves the state untouched — the rejection is
reported through the `None` value only, never as an error; when it returns
`Some`, the `TaskExecutionSpec` carries the slot-mapping side table taken
from the task (which is left empty on the task) together with the task's
body future. -/
theorem C3_try_start_rejects_with_none (w : MemoryBackend) (task : TaskId)
    (t : Task) (h : storeGet w.memory_tasks task = some t) :
    (try_start_task_execution w task = some (none, w)
      ↔ t.state ≠ TaskStateType.Scheduled)
    ∧ (t.state = TaskStateType.Scheduled →
        try_start_task_execution w task
          = some (some ⟨some t.slotMappings, t.kind⟩,
              { w with memory_tasks := storeSet w.memory_tasks task { t with state := TaskStateType.InProgress (t.epoch + 1), epoch := t.epoch + 1, slotMappings := [] } })) := by
  cases hst : t.state <;>
    simp [try_start_task_execution, h, Task.execution_started,
      Task.take_slot_mappings, Task.execute, hst]

theorem execution_completed_fst (t : Task) (e : Nat) (m : Option SlotMappings) :
    (t.execution_completed e m).1 = true ↔ t.state = TaskStateType.InProgressDirty e := by
  cases hst : t.state with
  | Dirty => simp [Task.execution_completed, hst]
  | Scheduled => simp [Task.execution_completed, hst]
  | Done => simp [Task.execution_completed, hst]
  | InProgress e2 =>
    simp only [Task.execution_completed, hst]
    split <;> simp
  | InProgressDirty e2 =>
    simp only [Task.execution_completed, hst]
    split <;> simp_all

theorem execution_completed_output (t : Task) (e : Nat) (m : Option SlotMappings) :
    ((t.execution_completed e m).2).output = t.output := by
  cases hst : t.state <;> simp only [Task.execution_completed, hst] <;>
    first
    | rfl
    | (split <;> rfl)

theorem execution_result_fst (t : Task) (r : OutputContent) :
    (t.execution_result r).1 = (t.output.write r).1 := rfl

theorem execution_result_snd (t : Task) (r : OutputContent) :
    (t.execution_result r).2 = { t with output := (t.output.write r).2 } := rfl

/-- C2: `task_execution_completed` applies the execution result to the
task's output (through the write path, marking the old readers for
invalidation) and returns true if and only if the task should be
re-scheduled, i.e. exactly when the completing epoch's state was
`InProgressDirty` (the task was invalidated during the run); a completion
of an undisturbed `InProgress` run returns false. -/
theorem C2_completed_reschedules_iff_dirty (w : MemoryBackend) (task : TaskId)
    (t : Task) (m : Option SlotMappings) (r : OutputContent) (e : Nat)
    (h : storeGet w.memory_tasks task = some t) :
    ∃ b w1, task_execution_completed w task m r e = some (b, w1)
      ∧ (b = true ↔ t.state = TaskStateType.InProgressDirty e)
      ∧ (∃ t2, storeGet w1.memory_tasks task = some t2
          ∧ t2.output = (Output.write t.output r).2)
      ∧ w1.notified = w.notified ++ (Output.write t.output r).1 := by
  have hne : storeGet w.memory_tasks task ≠ none := by rw [h]; simp
  refine ⟨((t.execution_result r).2.execution_completed e m).1,
    { w with
      memory_tasks := storeSet w.memory_tasks task
        ((t.execution_result r).2.execution_completed e m).2,
      notified := w.notified ++ (t.execution_result r).1 },
    ?_, ?_, ?_, ?_⟩
  · simp [task_execution_completed, h]
  · rw [execution_completed_fst]
    rw [execution_result_snd]
  · refine ⟨((t.execution_result r).2.execution_completed e m).2, ?_, ?_⟩
    · exact storeGet_set_self _ _ _ hne
    · rw [execution_completed_output, execution_result_snd]
  · rw [execution_result_fst]

/-- The backend state used as concrete input by the witnesses: a single
task with id 0 in state `Scheduled`. -/
def wit_task : Task :=
  ⟨0, TaskKind.Native 0 [], TaskStateType.Scheduled, 0, ⟨none, []⟩, [], [], [], 0⟩

/-- A backend holding only `wit_task`. -/
def wit_backend : MemoryBackend :=
  ⟨[(0, wit_task)], [], ⟨[], 0⟩, [], ⟨[], 1⟩, [], [], [], 0⟩

/-- Witness for C3 at the concrete backend `wit_backend`. -/
theorem C3_witness :
    storeGet wit_backend.memory_tasks 0 = some wit_task
    ∧ ((try_start_task_execution wit_backend 0 = some (none, wit_backend)
        ↔ wit_task.state ≠ TaskStateType.Scheduled)
      ∧ (wit_task.state = TaskStateType.Scheduled →
          try_start_task_execution wit_backend 0
            = some (some ⟨some wit_task.slotMappings, wit_task.kind⟩,
              { wit_backend with memory_tasks := storeSet wit_backend.memory_tasks 0 { wit_task with state := TaskStateType.InProgress (wit_task.epoch + 1), epoch := wit_task.epoch + 1, slotMappings := [] } }))) :=
  ⟨by decide, C3_try_start_rejects_with_none wit_backend 0 wit_task (by decide)⟩

/-- Witness for C2 at the concrete backend `wit_backend`. -/
theorem C2_witness :
    storeGet wit_backend.memory_tasks 0 = some wit_task
    ∧ (∃ b w1, task_execution_completed wit_backend 0 none (Except.ok (RawVc.TaskOutput 0)) 1
          = some (b, w1)
        ∧ (b = true ↔ wit_task.state = TaskStateType.InProgressDirty 1)
        ∧ (∃ t2, storeGet w1.memory_tasks 0 = some t2
            ∧ t2.output = (Output.write wit_task.output (Except.ok (RawVc.TaskOutput 0))).2)
        ∧ w1.notified = wit_backend.notified
            ++ (Output.write wit_task.output (Except.ok (RawVc.TaskOutput 0))).1) :=
  ⟨by decide,
    C2_completed_reschedules_iff_dirty wit_backend 0 wit_task none
      (Except.ok (RawVc.TaskOutput 0)) 1 (by decide)⟩

/-- The empty backend: no tasks, no jobs, empty cache. -/
def empty_backend : MemoryBackend := ⟨[], [], ⟨[], 0⟩, [], ⟨[], 0⟩, [], [], [], 0⟩

/-- C4 counterexample: the claim states that `try_read_task_output` on an
unknown (not stored) id fails with a recoverable `InternalError` returned
to the caller.  In the source, `with_task` is
`func(&self.memory_tasks.get(*id).unwrap())`: the `unwrap` of the failed
store lookup panics, which in this embedding of fallible code is the
`none` result — no `InternalError` value (no `some` result at all) is
returned to the caller. -/
theorem C4_counterexample : try_read_task_output empty_backend 0 1 = none := by
  decide

/-- C4 amended: for every call of `try_read_task_output` with an unknown
(not stored) id, the `with_task` unwrap of the store lookup panics and
aborts the backend operation (the `none` outcome); no `InternalError`
value is returned to the caller. -/
theorem C4_amended_unknown_id_panics (w : MemoryBackend) (task reader : TaskId)
    (h : storeGet w.memory_tasks task = none) :
    try_read_task_output w task reader = none := by
  simp [try_read_task_output, h]

/-- Witness for the amended C4 at the concrete empty backend. -/
theorem C4_witness :
    storeGet empty_backend.memory_tasks 2 = none
    ∧ try_read_task_output empty_backend 2 1 = none :=
  ⟨by decide, C4_amended_unknown_id_panics empty_backend 2 1 (by decide)⟩

theorem list_get_set {α : Type} :
    ∀ (l : List α) (i : Nat) (s a : α), l.get? i = some s →
      (l.set i a).get? i = some a := by
  intro l
  induction l with
  | nil => intro i s a h; cases h
  | cons x rest ih =>
    intro i s a h
    cases i with
    | zero => rfl
    | succ i => exact ih i s a h

/-- C5: writing a value that is structurally equal to the value already
stored in an output cell or slot is a no-op — the stored value, the reader
sets, the dependent tasks and the notification log are unchanged, and zero
invalidations are produced; only a changed (or first) write stores the new
value, clears the readers and returns the old readers set to the
invalidation path.  Conjuncts one and two cover the slot path
(`update_task_slot`/`Slot::assign`); conjuncts three and four cover the
output cell write itself (`Output::write`); conjunct five covers the
output-cell write as reached through the backend
(`task_execution_completed` → `execution_result`): an equal result leaves
the task's output (value and readers) unchanged and appends nothing to the
invalidation notification log. -/
theorem C5_equal_write_is_noop (w : MemoryBackend) (task : TaskId) (index : Nat)
    (t : Task) (s : Slot) (v : SlotContent)
    (ht : storeGet w.memory_tasks task = some t)
    (hs : t.slots.get? index = some s) :
    (s.content = some v → update_task_slot w task index v = some w)
    ∧ (s.content ≠ some v →
        ∃ w1, update_task_slot w task index v = some w1
          ∧ (∃ t1, storeGet w1.memory_tasks task = some t1
              ∧ t1.slots.get? index = some ⟨some v, []⟩)
          ∧ w1.notified = w.notified ++ s.readers)
    ∧ (∀ c, t.output.content = some c → Output.write t.output c = ([], t.output))
    ∧ (∀ c, t.output.content ≠ some c →
        Output.write t.output c = (t.output.readers, ⟨some c, []⟩))
    ∧ (∀ c m e, t.output.content = some c →
        ∀ b w1, task_execution_completed w task m c e = some (b, w1) →
          w1.notified = w.notified
          ∧ (∃ t2, storeGet w1.memory_tasks task = some t2 ∧ t2.output = t.output)) := by
  have hne : storeGet w.memory_tasks task ≠ none := by rw [ht]; simp
  have hs' : t.slots[index]? = some s := by
    rw [← List.get?_eq_getElem?]
    exact hs
  refine ⟨?_, ?_, ?_, ?_, ?_⟩
  · intro hv
    have hassign : s.assign v = ([], s) := by
      simp [Slot.assign, hv]
    have hset : t.slots.set index s = t.slots := list_set_get_self t.slots index s hs
    have hteta : { t with slots := t.slots.set index s } = t := by
      rw [hset]
    simp [update_task_slot, ht, hs, hs', hassign, hteta, storeSet_of_get_self _ _ _ ht]
  · intro hv
    have hassign : s.assign v = (s.readers, ⟨some v, []⟩) := by
      cases hc : s.content with
      | none => simp [Slot.assign, hc]
      | some old =>
        have hno : old ≠ v := fun he => hv (by rw [hc, he])
        simp [Slot.assign, hc, hno]
    refine ⟨{ w with
        memory_tasks := storeSet w.memory_tasks task { t with slots := t.slots.set index ⟨some v, []⟩ },
        notified := w.notified ++ s.readers }, ?_, ?_, rfl⟩
    · simp [update_task_slot, ht, hs, hs', hassign]
    · refine ⟨{ t with slots := t.slots.set index ⟨some v, []⟩ }, ?_, ?_⟩
      · exact storeGet_set_self _ _ _ hne
      · exact list_get_set t.slots index s ⟨some v, []⟩ hs
  · intro c hc
    simp [Output.write, hc]
  · intro c hc
    cases hoc : t.output.content with
    | none => simp [Output.write, hoc]
    | some old =>
      have hno : old ≠ c := fun he => hc (by rw [hoc, he])
      simp [Output.write, hoc, hno]
  · intro c m e hc b w1 hcomp
    have hw : Output.write t.output c = ([], t.output) := by
      simp [Output.write, hc]
    have hcanon : task_execution_completed w task m c e
        = some (((t.execution_result c).2.execution_completed e m).1,
            { w with
              memory_tasks := storeSet w.memory_tasks task
                ((t.execution_result c).2.execution_completed e m).2,
              notified := w.notified ++ (t.execution_result c).1 }) := by
      simp [task_execution_completed, ht]
    rw [hcanon] at hcomp
    injection hcomp with hpair
    injection hpair with hb hw1
    subst hw1
    constructor
    · show w.notified ++ (t.execution_result c).1 = w.notified
      rw [execution_result_fst, hw]
      simp
    · refine ⟨((t.execution_result c).2.execution_completed e m).2, ?_, ?_⟩
      · exact storeGet_set_self _ _ _ hne
      · rw [execution_completed_output, execution_result_snd]
        show (Output.write t.output c).2 = t.output
        rw [hw]

/-- A slot with a value and one reader, for the witnesses. -/
def wit_slot : Slot := ⟨some 5, [3]⟩

/-- A completed task with a populated output (read by task 2) and one
populated slot, for the witnesses. -/
def wit_task2 : Task :=
  ⟨1, TaskKind.Native 0 [], TaskStateType.Done, 1,
    ⟨some (Except.ok (RawVc.TaskSlot 1 0)), [2]⟩, [wit_slot], [], [], 0⟩

/-- A backend holding only `wit_task2`. -/
def wit_backend2 : MemoryBackend :=
  ⟨[(1, wit_task2)], [], ⟨[], 0⟩, [], ⟨[], 2⟩, [], [], [], 0⟩

/-- Witness for C5 at the concrete backend `wit_backend2`. -/
theorem C5_witness :
    storeGet wit_backend2.memory_tasks 1 = some wit_task2
    ∧ wit_task2.slots.get? 0 = some wit_slot
    ∧ ((wit_slot.content = some 5 → update_task_slot wit_backend2 1 0 5 = some wit_backend2)
      ∧ (wit_slot.content ≠ some 5 →
          ∃ w1, update_task_slot wit_backend2 1 0 5 = some w1
            ∧ (∃ t1, storeGet w1.memory_tasks 1 = some t1
                ∧ t1.slots.get? 0 = some ⟨some 5, []⟩)
            ∧ w1.notified = wit_backend2.notified ++ wit_slot.readers)
      ∧ (∀ c, wit_task2.output.content = some c →
          Output.write wit_task2.output c = ([], wit_task2.output))
      ∧ (∀ c, wit_task2.output.content ≠ some c →
          Output.write wit_task2.output c = (wit_task2.output.readers, ⟨some c, []⟩))
      ∧ (∀ c m e, wit_task2.output.content = some c →
          ∀ b w1, task_execution_completed wit_backend2 1 m c e = some (b, w1) →
            w1.notified = wit_backend2.notified
            ∧ (∃ t2, storeGet w1.memory_tasks 1 = some t2 ∧ t2.output = wit_task2.output))) :=
  ⟨by decide, by decide,
    C5_equal_write_is_noop wit_backend2 1 0 wit_task2 wit_slot 5 (by decide) (by decide)⟩

/-- C7: `try_read_task_output_untracked` returns the same value-or-pending
result as `try_read_task_output` would, but mutates nothing: after an
untracked read the backend state is exactly as before (no reader recorded,
no dependency edge), whereas in the populated case the tracked read
records the reader in the output's readers set and appends an `OnOutput`
dependency to the current task's dependency set. -/
theorem C7_untracked_read_no_mutation (w : MemoryBackend) (task reader : TaskId)
    (t : Task) (h : storeGet w.memory_tasks task = some t) :
    ((try_read_task_output_untracked w task).map Prod.fst
      = (try_read_task_output w task reader).map Prod.fst)
    ∧ (try_read_task_output_untracked w task).map Prod.snd = some w
    ∧ (∀ c, t.output.content = some c →
        ∃ w1, try_read_task_output w task reader = some (Except.ok c, w1)
          ∧ w1.current_deps = w.current_deps ++ [RawVc.TaskOutput task]
          ∧ (∃ t1, storeGet w1.memory_tasks task = some t1
              ∧ t1.output.content = some c
              ∧ t1.output.readers = (if reader ∈ t.output.readers then t.output.readers else t.output.readers ++ [reader]))) := by
  have hne : storeGet w.memory_tasks task ≠ none := by rw [h]; simp
  cases hoc : t.output.content with
  | none =>
    refine ⟨?_, ?_, ?_⟩
    · simp [try_read_task_output, try_read_task_output_untracked, h, hoc]
    · simp [try_read_task_output_untracked, h, hoc]
    · intro c hc
      exact Option.noConfusion hc
  | some c =>
    have hread : t.output.read reader
        = (c, ⟨some c, if reader ∈ t.output.readers then t.output.readers else t.output.readers ++ [reader]⟩) := by
      simp [Output.read, hoc]
    have hreadu : t.output.read_untracked = (c, t.output) := by
      simp [Output.read_untracked, hoc]
    have houteta : { t with output := t.output } = t := rfl
    refine ⟨?_, ?_, ?_⟩
    · simp [try_read_task_output, try_read_task_output_untracked, h, hoc, hread, hreadu]
    · simp [try_read_task_output_untracked, h, hoc, hreadu, houteta,
        storeSet_of_get_self _ _ _ h]
    · intro c' hc'
      injection hc' with hc'
      subst hc'
      refine ⟨{ (add_dependency_to_current w (RawVc.TaskOutput task)) with
          memory_tasks := storeSet w.memory_tasks task { t with output := (t.output.read reader).2 } }, ?_, rfl, ?_⟩
      · simp [try_read_task_output, h, hoc, hread, add_dependency_to_current]
      · refine ⟨{ t with output := (t.output.read reader).2 }, ?_, ?_, ?_⟩
        · exact storeGet_set_self _ _ _ hne
        · rw [hread]
        · rw [hread]

/-- Witness for C7 at the concrete backend `wit_backend2`. -/
theorem C7_witness :
    storeGet wit_backend2.memory_tasks 1 = some wit_task2
    ∧ (((try_read_task_output_untracked wit_backend2 1).map Prod.fst
        = (try_read_task_output wit_backend2 1 4).map Prod.fst)
      ∧ (try_read_task_output_untracked wit_backend2 1).map Prod.snd = some wit_backend2
      ∧ (∀ c, wit_task2.output.content = some c →
          ∃ w1, try_read_task_output wit_backend2 1 4 = some (Except.ok c, w1)
            ∧ w1.current_deps = wit_backend2.current_deps ++ [RawVc.TaskOutput 1]
            ∧ (∃ t1, storeGet w1.memory_tasks 1 = some t1
                ∧ t1.output.content = some c
                ∧ t1.output.readers = (if 4 ∈ wit_task2.output.readers then wit_task2.output.readers else wit_task2.output.readers ++ [4])))) :=
  ⟨by decide, C7_untracked_read_no_mutation wit_backend2 1 4 wit_task2 (by decide)⟩

theorem connect_task_child_fields (w : MemoryBackend) (parent child : TaskId)
    (w1 : MemoryBackend) (h : connect_task_child w parent child = some w1) :
    w1.memory_tasks.map Prod.fst = w.memory_tasks.map Prod.fst
    ∧ w1.background_jobs = w.background_jobs
    ∧ w1.background_job_id_factory = w.background_job_id_factory
    ∧ w1.task_cache = w.task_cache
    ∧ w1.task_id_factory = w.task_id_factory
    ∧ w1.notified = w.notified
    ∧ w1.current_deps = w.current_deps
    ∧ w1.new_task_calls = w.new_task_calls := by
  have hf := connect_task_child_frame w parent child w1 h
  simp only [taskFrame, Prod.mk.injEq] at hf
  exact ⟨hf.1, hf.2.1, hf.2.2.1, hf.2.2.2.1, hf.2.2.2.2.1, hf.2.2.2.2.2.1,
    hf.2.2.2.2.2.2.1, hf.2.2.2.2.2.2.2⟩

/-- C6: `get_or_create_persistent_task` is idempotent per fingerprint in
the cache-hit sense — a call whose fingerprint is already mapped in the
cache returns the cached task id, invokes no `Task::new_*` constructor,
creates no new task entry in the store, leaves the id allocator and the
cache untouched, and only connects the parent-child edge. -/
theorem C6_cache_hit_connects_only (w : MemoryBackend) (task_type : PersistentTaskType)
    (parent : TaskId) (race : Option TaskId) (tid : TaskId)
    (h : storeGet w.task_cache task_type = some tid) :
    get_or_create_persistent_task w task_type parent race
        = (connect_task_child w parent tid).map (fun w1 => (tid, w1))
    ∧ (∀ r w1, get_or_create_persistent_task w task_type parent race = some (r, w1) →
        r = tid
        ∧ w1.memory_tasks.map Prod.fst = w.memory_tasks.map Prod.fst
        ∧ w1.task_cache = w.task_cache
        ∧ w1.new_task_calls = w.new_task_calls
        ∧ w1.task_id_factory = w.task_id_factory) := by
  have h1 : get_or_create_persistent_task w task_type parent race
      = (connect_task_child w parent tid).map (fun w1 => (tid, w1)) := by
    simp [get_or_create_persistent_task, h]
  refine ⟨h1, ?_⟩
  intro r w1 hr
  rw [h1] at hr
  rcases Option.map_eq_some'.mp hr with ⟨w2, hconn, heq⟩
  injection heq with hr1 hw2
  subst hr1
  subst hw2
  rcases connect_task_child_fields w parent tid w2 hconn with
    ⟨hk, _, _, hc, hf, _, _, hn⟩
  exact ⟨rfl, hk, hc, hn, hf⟩

/-- A parent task used by the cache witnesses (inactive, no children). -/
def wit_parent : Task :=
  ⟨0, TaskKind.Root 9, TaskStateType.Done, 1, ⟨none, []⟩, [], [], [], 0⟩

/-- The fingerprint used by the cache witnesses. -/
def wit_ty : PersistentTaskType := PersistentTaskType.Native 7 []

/-- A backend whose cache already maps `wit_ty` to task 1. -/
def wit_backend3 : MemoryBackend :=
  ⟨[(0, wit_parent), (1, wit_task2)], [], ⟨[], 0⟩, [(wit_ty, 1)], ⟨[], 2⟩, [], [], [], 0⟩

/-- Witness for C6 at the concrete backend `wit_backend3`. -/
theorem C6_witness :
    storeGet wit_backend3.task_cache wit_ty = some 1
    ∧ (get_or_create_persistent_task wit_backend3 wit_ty 0 none
          = (connect_task_child wit_backend3 0 1).map (fun w1 => (1, w1))
      ∧ (∀ r w1, get_or_create_persistent_task wit_backend3 wit_ty 0 none = some (r, w1) →
          r = 1
          ∧ w1.memory_tasks.map Prod.fst = wit_backend3.memory_tasks.map Prod.fst
          ∧ w1.task_cache = wit_backend3.task_cache
          ∧ w1.new_task_calls = wit_backend3.new_task_calls
          ∧ w1.task_id_factory = wit_backend3.task_id_factory)) :=
  ⟨by decide, C6_cache_hit_connects_only wit_backend3 wit_ty 0 none 1 (by decide)⟩

/-- C1: `get_or_create_persistent_task` is single-flight per fingerprint.
When the cache insertion race is lost — the cache already contains an
entry for the fingerprint at `try_insert` time, modelled by the concurrent
insertion `some winner` between the initial lookup (a miss) and the
`try_insert` — the caller removes its tentatively created task from the
store, returns its tentative id to the id allocator via the reuse path,
and returns the id already present in the cache; so both callers observe
the same id, exactly one `Task::new_*` object remains stored for the
fingerprint, and the store's entries are exactly as before the call. -/
theorem C1_single_flight_race_lost (w : MemoryBackend) (task_type : PersistentTaskType)
    (parent winner : TaskId)
    (hmiss : storeGet w.task_cache task_type = none)
    (hfresh : storeGet w.memory_tasks w.task_id_factory.get.1 = none) :
    ∀ r w1, get_or_create_persistent_task w task_type parent (some winner) = some (r, w1) →
      r = winner
      ∧ storeGet w1.memory_tasks w.task_id_factory.get.1 = none
      ∧ w.task_id_factory.get.1 ∈ w1.task_id_factory.free
      ∧ storeGet w1.task_cache task_type = some winner
      ∧ w1.memory_tasks.map Prod.fst = w.memory_tasks.map Prod.fst
      ∧ w1.new_task_calls = w.new_task_calls + 1 := by
  intro r w1 hr
  rcases hg : w.task_id_factory.get with ⟨id, fac⟩
  have hid : w.task_id_factory.get.1 = id := by rw [hg]
  rw [hid] at hfresh
  have hcancel : ∀ task : Task,
      storeRemove (storeInsert w.memory_tasks id task) id = w.memory_tasks := by
    intro task
    show (if id = id then storeRemove w.memory_tasks id
      else (id, task) :: storeRemove w.memory_tasks id) = w.memory_tasks
    rw [if_pos rfl, storeRemove_of_get_none w.memory_tasks id hfresh]
  simp only [get_or_create_persistent_task, hmiss, hg, cacheTryInsert,
    storeGet_insert_self] at hr
  rcases Option.map_eq_some'.mp hr with ⟨w2, hconn, heq⟩
  injection heq with hr1 hw2
  subst hr1
  subst hw2
  rcases connect_task_child_fields _ parent winner w2 hconn with
    ⟨hk, _, _, hc, hf, _, _, hn⟩
  simp only [hcancel] at hk
  refine ⟨rfl, ?_, ?_, ?_, ?_, ?_⟩
  · rw [storeGet_none_iff] at hfresh ⊢
    rw [hk]
    exact hfresh
  · rw [hf]
    show id ∈ (IdFactory.reuse fac id).free
    simp [IdFactory.reuse]
  · rw [hc]
    exact storeGet_insert_self w.task_cache task_type winner
  · exact hk
  · rw [hn]

/-- A backend with an empty cache whose only task is the parent, for the
C1 witness. -/
def wit_backend4 : MemoryBackend :=
  ⟨[(0, wit_parent)], [], ⟨[], 0⟩, [], ⟨[], 5⟩, [], [], [], 0⟩

/-- Witness for C1 at the concrete backend `wit_backend4`: the tentative
id is 5, the racing winner's id is 9. -/
theorem C1_witness :
    storeGet wit_backend4.task_cache wit_ty = none
    ∧ storeGet wit_backend4.memory_tasks wit_backend4.task_id_factory.get.1 = none
    ∧ (∀ r w1, get_or_create_persistent_task wit_backend4 wit_ty 0 (some 9) = some (r, w1) →
        r = 9
        ∧ storeGet w1.memory_tasks wit_backend4.task_id_factory.get.1 = none
        ∧ wit_backend4.task_id_factory.get.1 ∈ w1.task_id_factory.free
        ∧ storeGet w1.task_cache wit_ty = some 9
        ∧ w1.memory_tasks.map Prod.fst = wit_backend4.memory_tasks.map Prod.fst
        ∧ w1.new_task_calls = wit_backend4.new_task_calls + 1) :=
  ⟨by decide, by decide,
    C1_single_flight_race_lost wit_backend4 wit_ty 0 9 (by decide) (by decide)⟩

theorem remove_fold_none :
    ∀ (l : List TaskId),
      l.foldl
        (fun acc id => acc.bind (fun w2 =>
          if (storeGet w2.memory_tasks id).isSome then some (remove_task w2 id) else none))
        none = none := by
  intro l
  induction l with
  | nil => rfl
  | cons id rest ih =>
    rw [List.foldl_cons]
    exact ih

theorem remove_fold_frame :
    ∀ (l : List TaskId) (w w1 : MemoryBackend),
      l.foldl
        (fun acc id => acc.bind (fun w2 =>
          if (storeGet w2.memory_tasks id).isSome then some (remove_task w2 id) else none))
        (some w) = some w1 →
      w1.background_jobs = w.background_jobs
      ∧ w1.background_job_id_factory = w.background_job_id_factory := by
  intro l
  induction l with
  | nil =>
    intro w w1 h
    injection h with h
    subst h
    exact ⟨rfl, rfl⟩
  | cons id rest ih =>
    intro w w1 h
    rw [List.foldl_cons] at h
    by_cases hg : (storeGet w.memory_tasks id).isSome
    · rw [show (some w).bind (fun w2 =>
          if (storeGet w2.memory_tasks id).isSome then some (remove_task w2 id) else none)
          = some (remove_task w id) from by simp [hg]] at h
      exact ih (remove_task w id) w1 h
    · rw [show (some w).bind (fun w2 =>
          if (storeGet w2.memory_tasks id).isSome then some (remove_task w2 id) else none)
          = none from by simp [hg]] at h
      rw [remove_fold_none rest] at h
      cases h

theorem background_job_run_frame (job : BackgroundJob) (w w1 : MemoryBackend)
    (h : job.run w = some w1) :
    w1.background_jobs = w.background_jobs
    ∧ w1.background_job_id_factory = w.background_job_id_factory := by
  cases job with
  | RemoveTasks tasks => exact remove_fold_frame tasks w w1 h
  | DeactivateTasks tasks =>
    injection h with h
    subst h
    have hf := foldl_taskFrame (decrement_active_fanout (w.memory_tasks.length + 1))
      (fun w2 id => decrement_active_fanout_frame _ w2 id) tasks w
    simp only [taskFrame, Prod.mk.injEq] at hf
    exact ⟨hf.2.1, hf.2.2.1⟩

/-- C8: `run_background_job` consumes each background job id exactly once.
The first invocation with a given id takes the job out of the job store,
runs it, and only then hands the id back to the job id allocator's
free-list; after it, the job store holds nothing under the id and the id
sits in the allocator's reuse list.  An invocation with an id whose job
has already been taken finds no job and returns a future that does
nothing — the state is unchanged. -/
theorem C8_job_id_consumed_once (w : MemoryBackend) (id : BackgroundJobId) :
    (∀ job, storeGet w.background_jobs id = some job →
      ∀ w1, run_background_job w id = some w1 →
        storeGet w1.background_jobs id = none
        ∧ id ∈ w1.background_job_id_factory.free)
    ∧ (storeGet w.background_jobs id = none → run_background_job w id = some w) := by
  constructor
  · intro job hjob w1 hrun
    unfold run_background_job at hrun
    rw [hjob] at hrun
    rcases Option.map_eq_some'.mp hrun with ⟨w2, hjr, heq⟩
    subst heq
    rcases background_job_run_frame job _ w2 hjr with ⟨h1, h2⟩
    constructor
    · show storeGet w2.background_jobs id = none
      rw [h1]
      exact storeGet_remove_self w.background_jobs id
    · show id ∈ (w2.background_job_id_factory.reuse id).free
      simp [IdFactory.reuse]
  · intro hnone
    unfold run_background_job
    rw [hnone]

/-- A backend holding one pending background job under id 0, for the C8
witness. -/
def wit_backend5 : MemoryBackend :=
  ⟨[], [(0, BackgroundJob.DeactivateTasks [])], ⟨[], 1⟩, [], ⟨[], 0⟩, [], [], [], 0⟩

/-- The state after `run_background_job wit_backend5 0`: the job is gone
and id 0 sits in the job allocator's free-list. -/
def wit_backend5_after : MemoryBackend :=
  ⟨[], [], ⟨[0], 1⟩, [], ⟨[], 0⟩, [], [], [], 0⟩

/-- Witness for C8 at the concrete backend `wit_backend5`. -/
theorem C8_witness :
    storeGet wit_backend5.background_jobs 0 = some (BackgroundJob.DeactivateTasks [])
    ∧ run_background_job wit_backend5 0 = some wit_backend5_after
    ∧ (storeGet wit_backend5_after.background_jobs 0 = none
      ∧ 0 ∈ wit_backend5_after.background_job_id_factory.free) :=
  ⟨by decide, by decide,
    (C8_job_id_consumed_once wit_backend5 0).1 (BackgroundJob.DeactivateTasks [])
      (by decide) wit_backend5_after (by decide)⟩
